import Mathlib

/-!
Verification of the big-ai conversational client.

Shallow embedding of:
* lib/history.ts        — generateTitle, getConversation, createConversation, updateConversation
* app/api/chat/route.ts — POST validation/routing, the stream tee and the history-saving drain
* components/ConversationModeOverlay.tsx — the voice conversation loop (first file version)
* hooks/useSpeechRecognition.ts — the dictation state machine

JavaScript strings are modelled by Lean String, numbers (timestamps) by Nat,
optional JSON fields by Option, and Firestore documents by plain structures.
JavaScript whitespace (regex \s and String.trim) is modelled over the common
whitespace characters space, tab, CR, LF, matching Lean's Char.isWhitespace.
-/

namespace BigAI

/-- A character counted as whitespace, as in the regex \s used by
lib/history.ts generateTitle (restricted to space, tab, CR, LF). -/
def isWS (c : Char) : Bool :=
  c = ' ' || c = '\t' || c = '\r' || c = '\n'

/-- JavaScript String.prototype.trim over the modelled whitespace set:
drops leading and trailing whitespace characters. -/
def jsTrim (s : String) : String :=
  String.mk (((s.data.dropWhile isWS).reverse.dropWhile isWS).reverse)

/-- Helper of jsSplitWS: walks the character list cutting at each maximal
whitespace run.  In mode some cur a segment is being built (cur holds its
reversed characters); in mode none the walker is inside a whitespace run
whose segment was already emitted. -/
def jsSplitGo : List Char → Option (List Char) → List String
  | [], some cur => [String.mk cur.reverse]
  | [], none => [""]
  | c :: cs, some cur =>
    if isWS c then String.mk cur.reverse :: jsSplitGo cs none
    else jsSplitGo cs (some (c :: cur))
  | c :: cs, none =>
    if isWS c then jsSplitGo cs none
    else jsSplitGo cs (some [c])

/-- JavaScript firstMessage.split(/\s+/): segments between maximal whitespace
runs; a leading (resp. trailing) run contributes an empty first (resp. last)
segment, and the empty string splits to a single empty segment. -/
def jsSplitWS (s : String) : List String :=
  jsSplitGo s.data (some [])

/-- lib/history.ts generateTitle: first six whitespace-delimited segments of
the message, joined by single spaces; appends "..." when more than five
segments were taken; falls back to "New Chat" when the title is empty. -/
def generateTitle (firstMessage : String) : String :=
  let words := (jsSplitWS firstMessage).take 6
  let title := String.intercalate " " words
  let title2 := if 5 < words.length then title ++ "..." else title
  if title2 = "" then "New Chat" else title2

/-- types/chat.ts FileAttachment. -/
structure FileAttachment where
  base64Data : String
  mimeType : String
  filename : String
  size : Nat
  deriving DecidableEq, Repr

/-- types/chat.ts Role. -/
inductive Role
  | user
  | model
  deriving DecidableEq, Repr

/-- lib/history.ts FirestoreMessage: serializeMessage stores the files field
only when non-empty, so the empty list encodes the absent field. -/
structure FirestoreMessage where
  id : String
  text : String
  role : Role
  timestamp : Nat
  files : List FileAttachment
  deriving DecidableEq, Repr

/-- The Firestore conversation document written by lib/history.ts. -/
structure ConversationDoc where
  id : String
  userId : String
  createdAt : Nat
  updatedAt : Nat
  title : String
  messages : List FirestoreMessage
  model : String
  systemPrompt : Option String
  deriving DecidableEq, Repr

/-- The conversations collection, modelled as a list of documents; db
.collection(...).doc(chatId).get() is lookup by document id. -/
def findDoc (store : List ConversationDoc) (chatId : String) : Option ConversationDoc :=
  store.find? (fun d => d.id == chatId)

/-- lib/history.ts getConversation: null when the document does not exist,
and null again (after only a console warning) when the stored userId differs
from the caller. -/
def getConversation (store : List ConversationDoc) (chatId userId : String) :
    Option ConversationDoc :=
  match findDoc store chatId with
  | none => none
  | some d => if d.userId ≠ userId then none else some d

/-- Firestore FieldValue.arrayUnion, as used by updateConversation: appends
each argument that is not already present in the stored array, in order. -/
def arrayUnion (xs new : List FirestoreMessage) : List FirestoreMessage :=
  new.foldl (fun acc m => if m ∈ acc then acc else acc ++ [m]) xs

/-- lib/history.ts createConversation: fresh ids are supplied by the uuid
source, passed here as chatId and userMsgId; the stored messages array holds
exactly the serialized first user message. -/
def createConversation (userId firstMessage : String) (files : List FileAttachment)
    (model systemPrompt : Option String) (chatId userMsgId : String) (now : Nat) :
    ConversationDoc :=
  { id := chatId
    userId := userId
    createdAt := now
    updatedAt := now
    title := generateTitle firstMessage
    messages := [⟨userMsgId, firstMessage, Role.user, now, files⟩]
    model := model.getD "gemini-2.5-flash-preview-09-2025"
    systemPrompt := systemPrompt }

/-- lib/history.ts updateConversation on the addressed document: throws
(error) when the document is missing or owned by another user; otherwise
arrayUnion-appends only the model message when isFirstExchange, else the user
message followed by the model message, refreshes updatedAt and, on the first
exchange, the title. Fresh message ids are the uuid arguments. -/
def updateConversation (doc : Option ConversationDoc)
    (userText modelText userId : String) (files : List FileAttachment)
    (isFirstExchange : Bool) (userMsgId modelMsgId : String) (now : Nat) :
    Except String ConversationDoc :=
  match doc with
  | none => Except.error "Unauthorized chat update attempt."
  | some d =>
    if d.userId ≠ userId then Except.error "Unauthorized chat update attempt."
    else
      let userMessage : FirestoreMessage := ⟨userMsgId, userText, Role.user, now, files⟩
      let modelMessage : FirestoreMessage := ⟨modelMsgId, modelText, Role.model, now, []⟩
      let messagesToAppend :=
        if isFirstExchange then [modelMessage] else [userMessage, modelMessage]
      Except.ok
        { d with
          messages := arrayUnion d.messages messagesToAppend
          updatedAt := now
          title := if isFirstExchange then generateTitle userText else d.title }

/-- app/api/chat/route.ts POST, up to the choice of response status: 401
before parsing when unauthenticated; 400 when the message is falsy or
whitespace-only and the files list is empty; 404 when a supplied chatId does
not resolve for this user; otherwise the streaming path answers 200, or 500
when a downstream step throws. -/
def postStatus (auth : Option String) (message : Option String)
    (files : List FileAttachment) (chatId : Option String)
    (store : List ConversationDoc) (downstreamOk : Bool) : Nat :=
  match auth with
  | none => 401
  | some userId =>
    let emptyMsg :=
      match message with
      | none => true
      | some s => s = "" || jsTrim s = ""
    if emptyMsg && files.isEmpty then 400
    else
      match chatId with
      | some cid =>
        match getConversation store cid userId with
        | none => 404
        | some _ => if downstreamOk then 200 else 500
      | none => if downstreamOk then 200 else 500

/-! ## The generation stream tee (POST step 3)

POST calls stream.tee() and hands one branch to the client response while an
async task drains the other into fullBotResponse.  ReadableStream.tee gives
each branch an independent read position over the one upstream chunk
sequence; a branch's read returns the chunk at its own position (advancing
it) or done once past the end, regardless of the other branch. -/

/-- Which of the two tee branches performs the next read: A is the
client-facing response stream, B the history-saving drain. -/
inductive Side
  | A
  | B
  deriving DecidableEq, Repr

/-- Read positions and chunks observed so far by the two branches of the
tee of the upstream chunk sequence. -/
structure TeeState where
  posA : Nat
  posB : Nat
  outA : List String
  outB : List String
  deriving DecidableEq, Repr

/-- One read by the given branch: deliver the chunk at that branch's own
position and advance it, or report done (no state change) past the end. -/
def teeStep (chunks : List String) (s : TeeState) : Side → TeeState
  | Side.A =>
    match chunks[s.posA]? with
    | some c => { s with posA := s.posA + 1, outA := s.outA ++ [c] }
    | none => s
  | Side.B =>
    match chunks[s.posB]? with
    | some c => { s with posB := s.posB + 1, outB := s.outB ++ [c] }
    | none => s

/-- Run an arbitrary interleaving of reads by the two branches, starting
from the initial tee state. -/
def teeRun (chunks : List String) (sched : List Side) : TeeState :=
  sched.foldl (teeStep chunks) ⟨0, 0, [], []⟩

/-! ## The history-saving drain (POST lines 174-189)

The async IIFE loops on reader.read() accumulating fullBotResponse, then
calls updateConversation once; when a read rejects (upstream failure) control
jumps to the catch block, which only logs — no persistence call is made. -/

/-- What the history branch observes next: a chunk, a clean close of the
stream (read resolves done), or a mid-stream failure (read rejects). -/
inductive UpEvent
  | chunk (s : String)
  | close
  | fail
  deriving DecidableEq, Repr

/-- A write the history task issues against the conversation store. -/
inductive PersistCall
  | update (chatId : String) (fullBotResponse : String)
  deriving DecidableEq, Repr

/-- The read loop of the history-saving task: acc is fullBotResponse so far.
On close, updateConversation is called with the accumulated text (when a
chatId exists); on fail, the catch block only logs, so no call is made. -/
def saveHistoryGo (chatId : Option String) : List UpEvent → String → List PersistCall
  | UpEvent.chunk s :: rest, acc => saveHistoryGo chatId rest (acc ++ s)
  | UpEvent.close :: _, acc =>
    match chatId with
    | some cid => [PersistCall.update cid acc]
    | none => []
  | UpEvent.fail :: _, _ => []
  | [], _ => []

/-- The persistence calls issued by the history-saving task for a given
sequence of read outcomes on the history branch. -/
def saveHistory (events : List UpEvent) (chatId : Option String) : List PersistCall :=
  saveHistoryGo chatId events ""

/-! ## The conversation loop overlay (first file version, lines 25-283)

State machine over the React state of ConversationModeOverlay plus the
observable effects on the text-to-speech engine.  Asynchronous delays
(the 500 ms mic-restart timer, the 5 s error timers) are collapsed into the
step in which the scheduled callback runs. -/

/-- The overlay status values. -/
inductive Phase
  | idle
  | listening
  | thinking
  | speaking
  | error
  deriving DecidableEq, Repr

/-- Overlay state: status and isAiSpeaking are React state; isListening is
the speech-recognition hook's state; spoken records every text handed to
speechSynthesis.speak, cancels counts speechSynthesis.cancel calls. -/
structure OverlayState where
  status : Phase
  isAiSpeaking : Bool
  isListening : Bool
  spoken : List String
  cancels : Nat
  deriving DecidableEq, Repr

/-- Events driving the overlay: the hook delivering a final transcript, the
in-flight fetch resolving with the full bot text (or failing), a mic-button
press, and the utterance onend callback of the text-to-speech engine. -/
inductive OverlayEvent
  | finalTranscript (t : String)
  | responseArrives (text : String)
  | responseFails
  | micToggle
  | ttsEnded
  deriving DecidableEq, Repr

/-- hooks startListening plus recognition.onstart plus the overlay onStart
callback: a no-op while already listening; otherwise the engine starts,
isListening becomes true, and onStart sets status to listening unless the
AI is currently speaking. -/
def startListeningFn (s : OverlayState) : OverlayState :=
  if s.isListening then s
  else
    let s1 := { s with isListening := true }
    if s1.isAiSpeaking then s1 else { s1 with status := Phase.listening }

/-- One overlay transition, translated from ConversationModeOverlay:
onFinalTranscript stops listening and enters thinking (or idle on a blank
transcript); the resolved fetch unconditionally hands the text to
startSpeaking (speaking status, speech queued); a failed fetch enters the
error status; handleMicToggle cancels speech, or stops listening, or starts
listening (error status when recognition is unsupported); utterance.onend
clears isAiSpeaking and restarts listening when supported, else goes idle. -/
def stepOverlay (recSupported hasUser : Bool) (s : OverlayState) :
    OverlayEvent → OverlayState
  | OverlayEvent.finalTranscript t =>
    let s1 := { s with isListening := false }
    if jsTrim t = "" then { s1 with status := Phase.idle }
    else { s1 with status := Phase.thinking }
  | OverlayEvent.responseArrives text =>
    { s with
      status := Phase.speaking
      isAiSpeaking := true
      spoken := s.spoken ++ [text] }
  | OverlayEvent.responseFails => { s with status := Phase.error }
  | OverlayEvent.micToggle =>
    if !hasUser then s
    else if s.isAiSpeaking then
      { s with cancels := s.cancels + 1, isAiSpeaking := false, status := Phase.idle }
    else if s.isListening then
      { s with isListening := false, status := Phase.idle }
    else if !recSupported then { s with status := Phase.error }
    else startListeningFn s
  | OverlayEvent.ttsEnded =>
    let s1 := { s with isAiSpeaking := false }
    if recSupported then startListeningFn s1
    else { s1 with status := Phase.idle }

/-- Fold a sequence of overlay events from a starting state. -/
def runOverlay (recSupported hasUser : Bool) (s : OverlayState)
    (es : List OverlayEvent) : OverlayState :=
  es.foldl (stepOverlay recSupported hasUser) s

/-- The overlay state before the loop is started. -/
def overlayInit : OverlayState :=
  ⟨Phase.idle, false, false, [], 0⟩

/-! ## The dictation hook (hooks/useSpeechRecognition.ts) -/

/-- Hook state: isListening is React state; finalAcc is
finalTranscriptRef.current; isManualStop is isManualStopRef.current;
delivered records the successive onFinalTranscript payloads. -/
structure STTState where
  isListening : Bool
  transcript : String
  finalAcc : String
  isManualStop : Bool
  delivered : List String
  deriving DecidableEq, Repr

/-- Engine callbacks and the hook's stopListening call, in arrival order.
engineResult carries the final fragments and the interim text of one
recognition.onresult event. -/
inductive STTEvent
  | engineStart
  | engineResult (finals : List String) (interim : String)
  | engineEnd
  | stopCall
  deriving DecidableEq, Repr

/-- One transition of the hook, translated from useSpeechRecognition:
onstart marks listening and clears the manual-stop flag; onresult appends
each final fragment plus a space to the accumulator and recomputes the
merged transcript; onend delivers the trimmed accumulator (when non-empty)
and either restarts the engine (non-manual end, continuous) or cleans up;
stopListening only sets the manual-stop flag while listening. -/
def sttStep (continuous : Bool) (s : STTState) : STTEvent → STTState
  | STTEvent.engineStart => { s with isListening := true, isManualStop := false }
  | STTEvent.engineResult finals interim =>
    let fin := finals.foldl (fun acc t => acc ++ t ++ " ") ""
    let s1 := if fin ≠ "" then { s with finalAcc := s.finalAcc ++ fin } else s
    { s1 with transcript := jsTrim (s1.finalAcc ++ interim) }
  | STTEvent.engineEnd =>
    if !s.isManualStop then
      let s1 :=
        if s.finalAcc ≠ "" then
          { s with delivered := s.delivered ++ [jsTrim s.finalAcc] }
        else s
      if continuous then s1
      else { s1 with isListening := false, isManualStop := false }
    else
      let s1 :=
        if s.finalAcc ≠ "" then
          { s with delivered := s.delivered ++ [jsTrim s.finalAcc] }
        else s
      { s1 with isListening := false, isManualStop := false }
  | STTEvent.stopCall =>
    if s.isListening then { s with isManualStop := true } else s

/-- Fold a sequence of hook events from a starting state. -/
def sttRun (continuous : Bool) (s : STTState) (es : List STTEvent) : STTState :=
  es.foldl (sttStep continuous) s

/-- Hook state right after startListening with an empty seed: transcript and
accumulator reset, manual-stop flag cleared, engine not yet started. -/
def sttInit : STTState :=
  ⟨false, "", "", false, []⟩

/-! ## Exchange runs over a conversation document -/

/-- The per-exchange inputs of one POST round trip reaching
updateConversation: the user text, the finished model text, attachments, the
two fresh uuids drawn for the messages, and the timestamp. -/
structure ExchangeInput where
  userText : String
  modelText : String
  files : List FileAttachment
  uidU : String
  uidM : String
  now : Nat
  deriving DecidableEq, Repr

/-- Sequentially apply updateConversation for a list of exchanges, each
flagged with its isFirstExchange value; stops at the first thrown error. -/
def runExchanges (userId : String) :
    ConversationDoc → List (ExchangeInput × Bool) → Except String ConversationDoc
  | d, [] => Except.ok d
  | d, (inp, isFirst) :: rest =>
    match updateConversation (some d) inp.userText inp.modelText userId inp.files
        isFirst inp.uidU inp.uidM inp.now with
    | Except.error e => Except.error e
    | Except.ok d2 => runExchanges userId d2 rest

/-- The flag pattern of POST on one conversation: the exchange that created
the conversation runs with isFirstExchange true, every later one false. -/
def exchangeFlags : List ExchangeInput → List (ExchangeInput × Bool)
  | [] => []
  | i :: rest => (i, true) :: rest.map (fun j => (j, false))

/-- The message ids stored in a conversation document. -/
def usedIds (d : ConversationDoc) : List String :=
  d.messages.map (fun m => m.id)

/-- All uuids drawn by a list of exchanges, in order. -/
def runUids : List ExchangeInput → List String
  | [] => []
  | i :: rest => i.uidU :: i.uidM :: runUids rest

/-! ## Claim-specific fixtures -/

/-- Modelled from the claim's words (C6), for comparison with generateTitle:
first six whitespace-delimited words joined by single spaces, with an
ellipsis appended if and only if the message had more than six words. -/
def specTitleC6 (m : String) : String :=
  if 6 < (jsSplitWS m).length then
    String.intercalate " " ((jsSplitWS m).take 6) ++ "..."
  else
    String.intercalate " " (jsSplitWS m)

/-- The dictation trace of claim C4: three engine-imposed ends, each after a
final fragment, then a manual stop (stopListening followed by the engine's
end callback). -/
def c4Trace : List STTEvent :=
  [STTEvent.engineStart, STTEvent.engineResult ["a"] "", STTEvent.engineEnd,
   STTEvent.engineStart, STTEvent.engineResult ["b"] "", STTEvent.engineEnd,
   STTEvent.engineStart, STTEvent.engineResult ["c"] "", STTEvent.engineEnd,
   STTEvent.engineStart, STTEvent.stopCall, STTEvent.engineEnd]

/-- A stored conversation used to witness claim C7. -/
def c7Doc : ConversationDoc :=
  createConversation "alice" "hello there big ai" [] none none "c7" "w0" 1

/-- The document produced by the witnessed C7 update. -/
def c7Res : ConversationDoc :=
  match updateConversation (some c7Doc) "second question" "second answer" "alice"
      [] false "w1" "w2" 5 with
  | Except.ok d => d
  | Except.error _ => c7Doc

/-- The freshly created conversation used to witness claim C8. -/
def c8Doc : ConversationDoc :=
  createConversation "alice" "hello world" [] none none "c8" "v0" 1

/-- Two completed exchanges used to witness claim C8. -/
def c8Inputs : List ExchangeInput :=
  [⟨"hello world", "hi!", [], "v1", "v2", 2⟩,
   ⟨"more please", "more text", [], "v3", "v4", 3⟩]

/-- The document after running the witnessed C8 exchanges. -/
def c8Res : ConversationDoc :=
  match runExchanges "alice" c8Doc (exchangeFlags c8Inputs) with
  | Except.ok d => d
  | Except.error _ => c8Doc

/-- A stored conversation owned by alice, used to witness claim C10. -/
def c10Doc : ConversationDoc :=
  createConversation "alice" "my private note" [] none none "c10" "y0" 1

/-! ## Helper lemmas -/

/-- Accumulating the mapped chunk prefix through the history-saving loop. -/
theorem saveHistoryGo_chunks (chatId : Option String) (pre : List String)
    (evs : List UpEvent) (acc : String) :
    saveHistoryGo chatId (pre.map UpEvent.chunk ++ evs) acc =
      saveHistoryGo chatId evs (pre.foldl (fun a s => a ++ s) acc) := by
  induction pre generalizing acc with
  | nil => rfl
  | cons p rest ih =>
    simp only [List.map_cons, List.cons_append, saveHistoryGo, List.foldl_cons]
    exact ih (acc ++ p)

/-- arrayUnion behaves as plain append when the new elements are pairwise
distinct and none is already stored. -/
theorem arrayUnion_eq_append (xs new : List FirestoreMessage)
    (hfresh : ∀ m ∈ new, m ∉ xs) (hnodup : new.Nodup) :
    arrayUnion xs new = xs ++ new := by
  induction new generalizing xs with
  | nil => simp [arrayUnion]
  | cons m rest ih =>
    have hm : m ∉ xs := hfresh m (List.mem_cons_self m rest)
    have hnd := List.nodup_cons.mp hnodup
    unfold arrayUnion at ih ⊢
    simp only [List.foldl_cons]
    rw [if_neg hm]
    have hfresh2 : ∀ x ∈ rest, x ∉ xs ++ [m] := by
      intro x hx
      rw [List.mem_append]
      push_neg
      refine ⟨hfresh x (List.mem_cons_of_mem m hx), ?_⟩
      simp only [List.mem_singleton]
      intro hxm
      exact hnd.1 (hxm ▸ hx)
    rw [ih (xs ++ [m]) hfresh2 hnd.2]
    simp

/-- A message whose id is not among the stored ids is not stored. -/
theorem not_mem_of_id_fresh (d : ConversationDoc) (m : FirestoreMessage)
    (h : m.id ∉ usedIds d) : m ∉ d.messages := by
  intro hm
  exact h (List.mem_map.mpr ⟨m, hm, rfl⟩)

/-- Single tee read preserves the per-branch prefix invariant. -/
theorem teeStep_inv (chunks : List String) (s : TeeState) (e : Side)
    (hA : s.outA = chunks.take s.posA) (hB : s.outB = chunks.take s.posB) :
    (teeStep chunks s e).outA = chunks.take (teeStep chunks s e).posA ∧
      (teeStep chunks s e).outB = chunks.take (teeStep chunks s e).posB := by
  cases e with
  | A =>
    cases hget : chunks[s.posA]? with
    | none => exact ⟨by simp [teeStep, hget, hA], by simp [teeStep, hget, hB]⟩
    | some c =>
      refine ⟨?_, by simp [teeStep, hget, hB]⟩
      simp only [teeStep, hget]
      rw [List.take_succ, hget]
      simp [hA]
  | B =>
    cases hget : chunks[s.posB]? with
    | none => exact ⟨by simp [teeStep, hget, hA], by simp [teeStep, hget, hB]⟩
    | some c =>
      refine ⟨by simp [teeStep, hget, hA], ?_⟩
      simp only [teeStep, hget]
      rw [List.take_succ, hget]
      simp [hB]

/-- The prefix invariant holds after any interleaving of tee reads. -/
theorem teeFold_inv (chunks : List String) (sched : List Side) (s : TeeState)
    (hA : s.outA = chunks.take s.posA) (hB : s.outB = chunks.take s.posB) :
    (sched.foldl (teeStep chunks) s).outA =
        chunks.take (sched.foldl (teeStep chunks) s).posA ∧
      (sched.foldl (teeStep chunks) s).outB =
        chunks.take (sched.foldl (teeStep chunks) s).posB := by
  induction sched generalizing s with
  | nil => exact ⟨hA, hB⟩
  | cons e rest ih =>
    have h := teeStep_inv chunks s e hA hB
    exact ih (teeStep chunks s e) h.1 h.2

/-! ## Claim theorems -/

/-- C1: for every upstream chunk sequence and every interleaving of reads by
the client-facing branch A and the history-saving branch B of the tee, once
each branch has read past the end, branch A observed exactly the upstream
chunks, branch B observed exactly the upstream chunks, and the two observed
concatenations agree (with each other and with the upstream concatenation). -/
theorem tee_fanout_concat (chunks : List String) (sched : List Side)
    (hA : chunks.length ≤ (teeRun chunks sched).posA)
    (hB : chunks.length ≤ (teeRun chunks sched).posB) :
    (teeRun chunks sched).outA = chunks ∧ (teeRun chunks sched).outB = chunks ∧
      String.join (teeRun chunks sched).outA =
        String.join (teeRun chunks sched).outB := by
  have h := teeFold_inv chunks sched ⟨0, 0, [], []⟩ (by simp) (by simp)
  have h1 : (teeRun chunks sched).outA = chunks := by
    rw [teeRun] at hA ⊢
    rw [h.1, List.take_of_length_le hA]
  have h2 : (teeRun chunks sched).outB = chunks := by
    rw [teeRun] at hB ⊢
    rw [h.2, List.take_of_length_le hB]
  exact ⟨h1, h2, by rw [h1, h2]⟩

/-- Witness for C1 at a concrete upstream sequence and interleaving. -/
theorem tee_fanout_concat_witness :
    (let fin := teeRun ["The ", "answer ", "is 42"]
        [Side.A, Side.A, Side.B, Side.B, Side.A, Side.B, Side.A, Side.B]
     (["The ", "answer ", "is 42"] : List String).length ≤ fin.posA) ∧
    (teeRun ["The ", "answer ", "is 42"]
        [Side.A, Side.A, Side.B, Side.B, Side.A, Side.B, Side.A, Side.B]).outA =
      ["The ", "answer ", "is 42"] := by
  refine ⟨by decide, ?_⟩
  exact (tee_fanout_concat ["The ", "answer ", "is 42"]
    [Side.A, Side.A, Side.B, Side.B, Side.A, Side.B, Side.A, Side.B]
    (by decide) (by decide)).1

/-- C2 counterexample: when the upstream stream fails after the partial
prefix "Hello, wor" was delivered, the history task issues no persistence
call at all — the partial text is not written (in particular not written
tagged as truncated); only a cleanly closed stream is persisted. -/
theorem saveHistory_partial_cex :
    saveHistory [UpEvent.chunk "Hello, ", UpEvent.chunk "wor", UpEvent.fail]
        (some "c1") = [] ∧
      saveHistory [UpEvent.chunk "Hello, ", UpEvent.chunk "wor", UpEvent.close]
        (some "c1") = [PersistCall.update "c1" "Hello, wor"] :=
  ⟨rfl, rfl⟩

/-- C2 amended: for every generation stream that fails after delivering any
prefix of chunks, the persistence side writes nothing — the partial
assistant text is discarded (the failure is only logged); the accumulated
text is persisted only when the stream closes cleanly. -/
theorem saveHistory_fail_discards (pre : List String) (rest : List UpEvent)
    (chatId : Option String) :
    saveHistory (pre.map UpEvent.chunk ++ UpEvent.fail :: rest) chatId = [] ∧
      ∀ cid, saveHistory (pre.map UpEvent.chunk ++ [UpEvent.close]) (some cid) =
        [PersistCall.update cid (String.join pre)] := by
  constructor
  · rw [saveHistory, saveHistoryGo_chunks]
    rfl
  · intro cid
    rw [saveHistory, saveHistoryGo_chunks]
    rfl

/-- C3 counterexample: starting the loop, finalizing "hello" (phase
Thinking), pressing the mic (manual interrupt), then the in-flight response
arriving: the response is handed to speech synthesis and the phase becomes
Speaking — it is neither discarded nor phase-neutral, and no generation
counter is consulted. -/
theorem thinking_interrupt_cex :
    (runOverlay true true overlayInit
        [OverlayEvent.micToggle, OverlayEvent.finalTranscript "hello",
         OverlayEvent.micToggle, OverlayEvent.responseArrives "hi there"]).spoken =
      ["hi there"] ∧
    (runOverlay true true overlayInit
        [OverlayEvent.micToggle, OverlayEvent.finalTranscript "hello",
         OverlayEvent.micToggle, OverlayEvent.responseArrives "hi there"]).status =
      Phase.speaking :=
  ⟨rfl, rfl⟩

/-- C3 amended: the loop has no generation counter; with recognition
supported and a signed-in user, a manual interrupt while the phase is
Thinking restarts listening, and the in-flight request's result is, on
arrival, always handed to speech synthesis and moves the phase to Speaking. -/
theorem thinking_interrupt_unguarded (s : OverlayState) (t : String)
    (_hth : s.status = Phase.thinking) (hsp : s.isAiSpeaking = false)
    (hl : s.isListening = false) :
    (stepOverlay true true s OverlayEvent.micToggle).status = Phase.listening ∧
    (stepOverlay true true (stepOverlay true true s OverlayEvent.micToggle)
        (OverlayEvent.responseArrives t)).status = Phase.speaking ∧
    (stepOverlay true true (stepOverlay true true s OverlayEvent.micToggle)
        (OverlayEvent.responseArrives t)).spoken = s.spoken ++ [t] := by
  simp [stepOverlay, startListeningFn, hsp, hl]

/-- Witness for C3 amended at a concrete thinking state. -/
theorem thinking_interrupt_unguarded_witness :
    ((⟨Phase.thinking, false, false, [], 0⟩ : OverlayState).status = Phase.thinking) ∧
    (stepOverlay true true
        (stepOverlay true true (⟨Phase.thinking, false, false, [], 0⟩ : OverlayState)
          OverlayEvent.micToggle)
        (OverlayEvent.responseArrives "hi")).status = Phase.speaking := by
  refine ⟨rfl, ?_⟩
  exact (thinking_interrupt_unguarded ⟨Phase.thinking, false, false, [], 0⟩ "hi"
    rfl rfl rfl).2.1

/-- C4: with continuous dictation, three engine-imposed end events each
following a final fragment "a", "b", "c", then a manual stop: the manual
stop's delivery is the merged transcript "a b c" — fragments in original
order, single-spaced, none lost or duplicated — and the session is idle. -/
theorem continuous_dictation_merge :
    (sttRun true sttInit c4Trace).delivered.getLast? = some "a b c" ∧
      (sttRun true sttInit c4Trace).isListening = false :=
  ⟨rfl, rfl⟩

/-- C5 counterexample: from a concrete Speaking state, the mic press cancels
synthesis and reaches Idle in the same step, but a late text-to-speech ended
event then moves the phase to Listening — a further phase transition. -/
theorem speaking_interrupt_cex :
    (stepOverlay true true (⟨Phase.speaking, true, false, ["hi"], 0⟩ : OverlayState)
        OverlayEvent.micToggle).status = Phase.idle ∧
    (stepOverlay true true (⟨Phase.speaking, true, false, ["hi"], 0⟩ : OverlayState)
        OverlayEvent.micToggle).cancels = 1 ∧
    (stepOverlay true true
        (stepOverlay true true (⟨Phase.speaking, true, false, ["hi"], 0⟩ : OverlayState)
          OverlayEvent.micToggle)
        OverlayEvent.ttsEnded).status = Phase.listening :=
  ⟨rfl, rfl, rfl⟩

/-- C5 amended: a manual interrupt while Speaking cancels synthesis and
moves the phase to Idle in the same step; however the utterance's ended
callback is unguarded, so a late ended event after the cancellation restarts
listening (the phase becomes Listening) when recognition is supported. -/
theorem speaking_interrupt_late_end (s : OverlayState)
    (_hst : s.status = Phase.speaking) (hsp : s.isAiSpeaking = true)
    (hl : s.isListening = false) :
    (stepOverlay true true s OverlayEvent.micToggle).status = Phase.idle ∧
    (stepOverlay true true s OverlayEvent.micToggle).isAiSpeaking = false ∧
    (stepOverlay true true s OverlayEvent.micToggle).cancels = s.cancels + 1 ∧
    (stepOverlay true true (stepOverlay true true s OverlayEvent.micToggle)
        OverlayEvent.ttsEnded).status = Phase.listening := by
  simp [stepOverlay, startListeningFn, hsp, hl]

/-- Witness for C5 amended at a concrete speaking state. -/
theorem speaking_interrupt_late_end_witness :
    ((⟨Phase.speaking, true, false, [], 3⟩ : OverlayState).status = Phase.speaking) ∧
    (stepOverlay true true (⟨Phase.speaking, true, false, [], 3⟩ : OverlayState)
        OverlayEvent.micToggle).status = Phase.idle := by
  refine ⟨rfl, ?_⟩
  exact (speaking_interrupt_late_end ⟨Phase.speaking, true, false, [], 3⟩
    rfl rfl rfl).1

/-- C6 counterexample: the six-word message "a b c d e f" is not truncated,
yet generateTitle appends the ellipsis, diverging from the claimed rule
(ellipsis if and only if more than six words). -/
theorem generateTitle_cex :
    generateTitle "a b c d e f" = "a b c d e f..." ∧
      specTitleC6 "a b c d e f" = "a b c d e f" ∧
      generateTitle "a b c d e f" ≠ specTitleC6 "a b c d e f" := by
  refine ⟨rfl, rfl, ?_⟩
  show ("a b c d e f..." : String) ≠ "a b c d e f"
  decide

/-- C6 amended: the title is the first six whitespace-delimited segments of
the message joined by single spaces, with an ellipsis appended if and only
if the message has six or more segments; with fewer than six segments the
joined words are kept unmodified except that an empty join falls back to
"New Chat". -/
theorem generateTitle_amended (m : String) :
    generateTitle m =
      (if 6 ≤ (jsSplitWS m).length then
        String.intercalate " " ((jsSplitWS m).take 6) ++ "..."
      else if String.intercalate " " (jsSplitWS m) = "" then "New Chat"
      else String.intercalate " " (jsSplitWS m)) := by
  unfold generateTitle
  dsimp only
  by_cases h : 6 ≤ (jsSplitWS m).length
  · have hlen : ((jsSplitWS m).take 6).length = 6 := by
      rw [List.length_take]
      omega
    rw [if_pos h, hlen]
    rw [if_pos (by omega : 5 < 6)]
    have hne : String.intercalate " " ((jsSplitWS m).take 6) ++ "..." ≠ "" := by
      intro heq
      have hlen2 := congrArg String.length heq
      rw [String.length_append] at hlen2
      have h3 : ("..." : String).length = 3 := rfl
      have h0 : ("" : String).length = 0 := rfl
      omega
    rw [if_neg hne]
  · have htake : (jsSplitWS m).take 6 = jsSplitWS m :=
      List.take_of_length_le (by omega)
    rw [if_neg h, htake]
    rw [if_neg (by omega : ¬ 5 < (jsSplitWS m).length)]

/-- C7: a completed exchange-append appends, atomically, exactly the model
message when isFirstExchange is true, and exactly the user message followed
by the model message otherwise (the pair as one unit on the same document
write), given that the drawn message uuids are fresh. -/
theorem updateConversation_appends_unit (d : ConversationDoc)
    (userText modelText userId : String) (files : List FileAttachment)
    (isFirstExchange : Bool) (userMsgId modelMsgId : String) (now : Nat)
    (d2 : ConversationDoc)
    (hU : (⟨userMsgId, userText, Role.user, now, files⟩ : FirestoreMessage) ∉ d.messages)
    (hM : (⟨modelMsgId, modelText, Role.model, now, []⟩ : FirestoreMessage) ∉ d.messages)
    (hids : userMsgId ≠ modelMsgId)
    (hok : updateConversation (some d) userText modelText userId files
        isFirstExchange userMsgId modelMsgId now = Except.ok d2) :
    d2.messages = d.messages ++
      (if isFirstExchange then
        [⟨modelMsgId, modelText, Role.model, now, []⟩]
      else
        [⟨userMsgId, userText, Role.user, now, files⟩,
         ⟨modelMsgId, modelText, Role.model, now, []⟩]) := by
  simp only [updateConversation] at hok
  by_cases hown : d.userId ≠ userId
  · rw [if_pos hown] at hok
    cases hok
  · rw [if_neg hown] at hok
    cases isFirstExchange with
    | false =>
      simp only [Bool.false_eq_true, if_false] at hok ⊢
      injection hok with h
      rw [← h]
      exact arrayUnion_eq_append d.messages _
        (by
          intro m hm
          rcases List.mem_cons.mp hm with h1 | h1
          · rw [h1]; exact hU
          · rw [List.mem_singleton.mp h1]; exact hM)
        (by
          refine List.nodup_cons.mpr ⟨?_, List.nodup_singleton _⟩
          rw [List.mem_singleton]
          intro habs
          exact hids (congrArg FirestoreMessage.id habs))
    | true =>
      simp only [if_true] at hok ⊢
      injection hok with h
      rw [← h]
      exact arrayUnion_eq_append d.messages _
        (by
          intro m hm
          rw [List.mem_singleton.mp hm]
          exact hM)
        (List.nodup_singleton _)

/-- Witness for C7 at a concrete conversation and a later (non-first)
exchange. -/
theorem updateConversation_appends_unit_witness :
    (("w1" : String) ≠ "w2") ∧
      c7Res.messages = c7Doc.messages ++
        [⟨"w1", "second question", Role.user, 5, []⟩,
         ⟨"w2", "second answer", Role.model, 5, []⟩] := by
  refine ⟨by decide, ?_⟩
  exact updateConversation_appends_unit c7Doc "second question" "second answer"
    "alice" [] false "w1" "w2" 5 c7Res (by decide) (by decide) (by decide) rfl

/-- A fresh-id exchange update succeeds, grows the message list by the size
of the appended unit, and extends the stored ids by at most the two drawn
uuids, leaving the owner unchanged. -/
theorem updateConversation_ok_of_fresh (d : ConversationDoc) (inp : ExchangeInput)
    (userId : String) (isFirst : Bool) (hown : d.userId = userId)
    (hU : inp.uidU ∉ usedIds d) (hM : inp.uidM ∉ usedIds d)
    (hne : inp.uidU ≠ inp.uidM) :
    ∃ d2, updateConversation (some d) inp.userText inp.modelText userId inp.files
        isFirst inp.uidU inp.uidM inp.now = Except.ok d2 ∧
      d2.messages.length = d.messages.length + (if isFirst then 1 else 2) ∧
      (∀ u, u ∈ usedIds d2 → u ∈ usedIds d ∨ u = inp.uidU ∨ u = inp.uidM) ∧
      d2.userId = d.userId := by
  have hownneg : ¬ d.userId ≠ userId := fun hc => hc hown
  have hmU : (⟨inp.uidU, inp.userText, Role.user, inp.now, inp.files⟩ :
      FirestoreMessage) ∉ d.messages := not_mem_of_id_fresh d _ hU
  have hmM : (⟨inp.uidM, inp.modelText, Role.model, inp.now, []⟩ :
      FirestoreMessage) ∉ d.messages := not_mem_of_id_fresh d _ hM
  cases isFirst with
  | true =>
    have hunion : arrayUnion d.messages
        [⟨inp.uidM, inp.modelText, Role.model, inp.now, []⟩] =
        d.messages ++ [⟨inp.uidM, inp.modelText, Role.model, inp.now, []⟩] :=
      arrayUnion_eq_append d.messages _
        (by intro m hm; rw [List.mem_singleton.mp hm]; exact hmM)
        (List.nodup_singleton _)
    have hok : updateConversation (some d) inp.userText inp.modelText userId
        inp.files true inp.uidU inp.uidM inp.now =
        Except.ok { d with
          messages := arrayUnion d.messages
            [⟨inp.uidM, inp.modelText, Role.model, inp.now, []⟩]
          updatedAt := inp.now
          title := generateTitle inp.userText } := by
      simp only [updateConversation]
      rw [if_neg hownneg]
      rfl
    refine ⟨_, hok, ?_, ?_, rfl⟩
    · show (arrayUnion d.messages
        [⟨inp.uidM, inp.modelText, Role.model, inp.now, []⟩]).length = _
      rw [hunion]
      simp
    · intro u hu
      show u ∈ usedIds d ∨ u = inp.uidU ∨ u = inp.uidM
      have hmem : u ∈ (arrayUnion d.messages
          [⟨inp.uidM, inp.modelText, Role.model, inp.now, []⟩]).map
            (fun m => m.id) := hu
      rw [hunion, List.map_append, List.mem_append] at hmem
      rcases hmem with h1 | h1
      · exact Or.inl h1
      · simp only [List.map_cons, List.map_nil, List.mem_singleton] at h1
        exact Or.inr (Or.inr h1)
  | false =>
    have hfresh2 : ∀ m ∈ ([⟨inp.uidU, inp.userText, Role.user, inp.now, inp.files⟩,
        ⟨inp.uidM, inp.modelText, Role.model, inp.now, []⟩] :
          List FirestoreMessage), m ∉ d.messages := by
      intro m hm
      rcases List.mem_cons.mp hm with h1 | h1
      · rw [h1]; exact hmU
      · rw [List.mem_singleton.mp h1]; exact hmM
    have hnodup2 : ([⟨inp.uidU, inp.userText, Role.user, inp.now, inp.files⟩,
        ⟨inp.uidM, inp.modelText, Role.model, inp.now, []⟩] :
          List FirestoreMessage).Nodup := by
      refine List.nodup_cons.mpr ⟨?_, List.nodup_singleton _⟩
      rw [List.mem_singleton]
      intro habs
      exact hne (congrArg FirestoreMessage.id habs)
    have hunion : arrayUnion d.messages
        [⟨inp.uidU, inp.userText, Role.user, inp.now, inp.files⟩,
         ⟨inp.uidM, inp.modelText, Role.model, inp.now, []⟩] =
        d.messages ++
          [⟨inp.uidU, inp.userText, Role.user, inp.now, inp.files⟩,
           ⟨inp.uidM, inp.modelText, Role.model, inp.now, []⟩] :=
      arrayUnion_eq_append d.messages _ hfresh2 hnodup2
    have hok : updateConversation (some d) inp.userText inp.modelText userId
        inp.files false inp.uidU inp.uidM inp.now =
        Except.ok { d with
          messages := arrayUnion d.messages
            [⟨inp.uidU, inp.userText, Role.user, inp.now, inp.files⟩,
             ⟨inp.uidM, inp.modelText, Role.model, inp.now, []⟩]
          updatedAt := inp.now
          title := d.title } := by
      simp only [updateConversation]
      rw [if_neg hownneg]
      rfl
    refine ⟨_, hok, ?_, ?_, rfl⟩
    · show (arrayUnion d.messages
        [⟨inp.uidU, inp.userText, Role.user, inp.now, inp.files⟩,
         ⟨inp.uidM, inp.modelText, Role.model, inp.now, []⟩]).length = _
      rw [hunion]
      simp
    · intro u hu
      show u ∈ usedIds d ∨ u = inp.uidU ∨ u = inp.uidM
      have hmem : u ∈ (arrayUnion d.messages
          [⟨inp.uidU, inp.userText, Role.user, inp.now, inp.files⟩,
           ⟨inp.uidM, inp.modelText, Role.model, inp.now, []⟩]).map
            (fun m => m.id) := hu
      rw [hunion, List.map_append, List.mem_append] at hmem
      rcases hmem with h1 | h1
      · exact Or.inl h1
      · simp only [List.map_cons, List.map_nil, List.mem_cons,
          List.mem_singleton] at h1
        rcases h1 with h1 | h1
        · exact Or.inr (Or.inl h1)
        · rcases h1 with h1 | h1
          · exact Or.inr (Or.inr h1)
          · exact absurd h1 (by simp)

/-- Running any number of non-first exchanges with globally fresh uuids
adds exactly two messages per completed exchange. -/
theorem runExchanges_false_length (userId : String) (inputs : List ExchangeInput) :
    ∀ d d2 : ConversationDoc, d.userId = userId →
      (∀ u ∈ runUids inputs, u ∉ usedIds d) → (runUids inputs).Nodup →
      runExchanges userId d (inputs.map fun j => (j, false)) = Except.ok d2 →
      d2.messages.length = d.messages.length + 2 * inputs.length := by
  induction inputs with
  | nil =>
    intro d d2 _ _ _ hrun
    simp only [List.map_nil, runExchanges] at hrun
    injection hrun with h
    rw [← h]
    simp
  | cons i rest ih =>
    intro d d2 hown hdisj hnodup hrun
    simp only [runUids, List.nodup_cons] at hnodup
    have hU : i.uidU ∉ usedIds d := hdisj i.uidU (by simp [runUids])
    have hM : i.uidM ∉ usedIds d := hdisj i.uidM (by simp [runUids])
    have hne : i.uidU ≠ i.uidM := by
      intro habs
      exact hnodup.1 (habs ▸ List.mem_cons_self _ _)
    obtain ⟨dmid, hok, hlen, hids, huid⟩ :=
      updateConversation_ok_of_fresh d i userId false hown hU hM hne
    simp only [List.map_cons, runExchanges] at hrun
    rw [hok] at hrun
    have htail := ih dmid d2 (by rw [huid]; exact hown) ?_ hnodup.2.2 hrun
    · have hlen2 : dmid.messages.length = d.messages.length + 2 := hlen
      simp only [List.length_cons]
      omega
    · intro u hu habs
      rcases hids u habs with h1 | h1 | h1
      · exact hdisj u (by simp [runUids, hu]) h1
      · rw [h1] at hu
        exact hnodup.1 (List.mem_cons_of_mem _ hu)
      · rw [h1] at hu
        exact hnodup.2.1 hu

/-- C8: the conversation created by createConversation holds exactly one
message, and after any non-empty run of completed exchanges (the creating
exchange flagged first, all later ones not), with globally fresh uuids, the
message count is twice the number of exchanges — the first append adds one
message, every later append adds two, so the count is even. -/
theorem messages_length_parity (userId firstMessage : String)
    (files : List FileAttachment) (model systemPrompt : Option String)
    (chatId userMsgId : String) (now : Nat) (inputs : List ExchangeInput)
    (d2 : ConversationDoc)
    (hfresh : (userMsgId :: runUids inputs).Nodup)
    (hrun : runExchanges userId
        (createConversation userId firstMessage files model systemPrompt chatId
          userMsgId now)
        (exchangeFlags inputs) = Except.ok d2) :
    (createConversation userId firstMessage files model systemPrompt chatId
        userMsgId now).messages.length = 1 ∧
      (inputs = [] → d2.messages.length = 1) ∧
      (inputs ≠ [] → d2.messages.length = 2 * inputs.length) := by
  refine ⟨rfl, ?_, ?_⟩
  · intro h
    subst h
    simp only [exchangeFlags, runExchanges] at hrun
    injection hrun with h2
    rw [← h2]
    rfl
  · intro hne
    cases inputs with
    | nil => exact absurd rfl hne
    | cons i rest =>
      simp only [runUids, List.nodup_cons] at hfresh
      have hU : i.uidU ∉ usedIds (createConversation userId firstMessage files
          model systemPrompt chatId userMsgId now) := by
        show i.uidU ∉ [userMsgId]
        rw [List.mem_singleton]
        intro habs
        exact hfresh.1 (habs ▸ List.mem_cons_self _ _)
      have hM : i.uidM ∉ usedIds (createConversation userId firstMessage files
          model systemPrompt chatId userMsgId now) := by
        show i.uidM ∉ [userMsgId]
        rw [List.mem_singleton]
        intro habs
        exact hfresh.1 (habs ▸ List.mem_cons_of_mem _ (List.mem_cons_self _ _))
      have hne2 : i.uidU ≠ i.uidM := by
        intro habs
        exact hfresh.2.1 (habs ▸ List.mem_cons_self _ _)
      obtain ⟨dmid, hok, hlen, hids, huid⟩ :=
        updateConversation_ok_of_fresh
          (createConversation userId firstMessage files model systemPrompt chatId
            userMsgId now) i userId true rfl hU hM hne2
      simp only [exchangeFlags, runExchanges] at hrun
      rw [hok] at hrun
      have htail := runExchanges_false_length userId rest dmid d2 huid ?_
        hfresh.2.2.2 hrun
      · have hlen2 : dmid.messages.length = 1 + 1 := hlen
        simp only [List.length_cons]
        omega
      · intro u hu habs
        rcases hids u habs with h1 | h1 | h1
        · have : u = userMsgId := List.mem_singleton.mp h1
          exact hfresh.1 (this ▸ List.mem_cons_of_mem _
            (List.mem_cons_of_mem _ hu))
        · rw [h1] at hu
          exact hfresh.2.1 (List.mem_cons_of_mem _ hu)
        · rw [h1] at hu
          exact hfresh.2.2.1 hu

/-- Witness for C8 at a concrete creation followed by two completed
exchanges. -/
theorem messages_length_parity_witness :
    ((("v0" : String) :: runUids c8Inputs).Nodup) ∧
      (c8Doc.messages.length = 1 ∧
        (c8Inputs = [] → c8Res.messages.length = 1) ∧
        (c8Inputs ≠ [] → c8Res.messages.length = 2 * c8Inputs.length)) := by
  refine ⟨by decide, ?_⟩
  exact messages_length_parity "alice" "hello world" [] none none "c8" "v0" 1
    c8Inputs c8Res (by decide) rfl

/-- C9: for an authenticated request, the chat POST endpoint answers 400 if
and only if the request's message is absent, empty or whitespace-only and
its attachments list is empty; in particular a whitespace-only message
accompanied by at least one attachment is never answered 400. -/
theorem postStatus_400_iff (userId : String) (message : Option String)
    (files : List FileAttachment) (chatId : Option String)
    (store : List ConversationDoc) (downstreamOk : Bool) :
    postStatus (some userId) message files chatId store downstreamOk = 400 ↔
      (jsTrim (message.getD "") = "" ∧ files = []) := by
  have hrest : (match chatId with
      | some cid =>
        match getConversation store cid userId with
        | none => 404
        | some _ => if downstreamOk then 200 else 500
      | none => (if downstreamOk then 200 else 500 : Nat)) ≠ 400 := by
    cases chatId with
    | none =>
      dsimp only
      cases downstreamOk <;> decide
    | some cid =>
      dsimp only
      cases hg : getConversation store cid userId with
      | none =>
        simp only [hg]
        decide
      | some d =>
        simp only [hg]
        cases downstreamOk <;> decide
  simp only [postStatus]
  cases message with
  | none =>
    simp only [Option.getD_none, Bool.true_and]
    cases files with
    | nil =>
      exact iff_of_true rfl ⟨rfl, rfl⟩
    | cons f fs =>
      rw [if_neg (by simp)]
      refine iff_of_false hrest ?_
      rintro ⟨-, hf⟩
      exact List.cons_ne_nil f fs hf
  | some s =>
    simp only [Option.getD_some]
    cases files with
    | nil =>
      by_cases hs : jsTrim s = ""
      · have hb : ((s = "" : Bool) || (jsTrim s = "" : Bool)) = true := by
          rw [Bool.or_eq_true]
          exact Or.inr (decide_eq_true hs)
        rw [if_pos (by rw [hb]; rfl)]
        exact iff_of_true rfl ⟨hs, rfl⟩
      · have hsne : s ≠ "" := by
          intro h0
          rw [h0] at hs
          exact hs rfl
        have hb : ((s = "" : Bool) || (jsTrim s = "" : Bool)) = false := by
          rw [Bool.or_eq_false_iff]
          exact ⟨decide_eq_false hsne, decide_eq_false hs⟩
        rw [if_neg (by rw [hb]; simp)]
        refine iff_of_false hrest ?_
        rintro ⟨h1, -⟩
        exact hs h1
    | cons f fs =>
      rw [if_neg (by simp)]
      refine iff_of_false hrest ?_
      rintro ⟨-, hf⟩
      exact List.cons_ne_nil f fs hf

/-- C10: a caller who is not the owner of a stored conversation receives
exactly the not-found result (null), the same as for a conversation id with
no document at all, so no conversation data is disclosed and the two cases
are indistinguishable. -/
theorem getConversation_nonowner_hidden (store : List ConversationDoc)
    (d : ConversationDoc) (chatId userId missingId : String)
    (hfound : findDoc store chatId = some d) (hown : d.userId ≠ userId)
    (hmissing : findDoc store missingId = none) :
    getConversation store chatId userId = none ∧
      getConversation store missingId userId = none := by
  constructor
  · unfold getConversation
    rw [hfound]
    exact if_pos hown
  · unfold getConversation
    rw [hmissing]

/-- Witness for C10: a non-owner probing alice's conversation and a missing
id gets the same null answer. -/
theorem getConversation_nonowner_hidden_witness :
    (findDoc [c10Doc] "c10" = some c10Doc ∧ c10Doc.userId ≠ "mallory" ∧
      findDoc [c10Doc] "zz" = none) ∧
    (getConversation [c10Doc] "c10" "mallory" = none ∧
      getConversation [c10Doc] "zz" "mallory" = none) := by
  refine ⟨⟨rfl, by decide, rfl⟩, ?_⟩
  exact getConversation_nonowner_hidden [c10Doc] c10Doc "c10" "mallory" "zz"
    rfl (by decide) rfl

end BigAI
